import Mathlib

/-!
Shallow embedding of the LRCP line-reversal subsystem of this repository
(src/line_reversal.rs, src/line_reversal/{message.rs, lrcp.rs, protocol.rs}).

Bytes are modelled as `Nat` (values < 256 in every packet the program
handles), byte strings as `List Nat`, Rust `String`s as `List Char`, and
`u32`/`i32` values as `Nat`/`Int` with explicit `% 2^32` / range checks
where the source relies on the machine width.  Fallible operations return
`Option`; `.expect`/slice-index panics are modelled by a distinguished
outcome constructor.  Socket sends are modelled as pure outputs (a send
either way never changes session state in the source).
-/

set_option maxRecDepth 4096

namespace message

/-- `Payload` from src/line_reversal/message.rs. -/
inductive Payload : Type
  | connect : Payload
  | close : Payload
  | ack (position : Nat) : Payload
  | data (data : List Nat) (position : Nat) : Payload
deriving DecidableEq, Repr

/-- `Message` from src/line_reversal/message.rs (`session: SessionId(u32)`). -/
structure Message : Type where
  session : Nat
  payload : Payload
deriving DecidableEq, Repr

/-- `Message::new_ack`. -/
def Message.new_ack (session : Nat) (position : Nat) : Message :=
  ⟨session, Payload.ack position⟩

/-- `Message::new_close`. -/
def Message.new_close (session : Nat) : Message :=
  ⟨session, Payload.close⟩

/-- `Message::new_data`. -/
def Message.new_data (session : Nat) (data : List Nat) (position : Nat) : Message :=
  ⟨session, Payload.data data position⟩

/-- ASCII bytes of a literal string (used for the fixed grammar words). -/
def str_bytes (s : String) : List Nat :=
  s.toList.map Char.toNat

/-- Decimal digits (as ASCII bytes) of a natural number: repeatedly take
the least significant digit.  The `fuel` argument only drives structural
recursion; it never runs out when `n ≤ fuel` since `n / 10 < n`. -/
def nat_dec_go : Nat → Nat → List Nat
  | 0, n => [48 + n % 10]
  | fuel + 1, n =>
      if n < 10 then [48 + n]
      else nat_dec_go fuel (n / 10) ++ [48 + n % 10]

/-- Decimal digits (as ASCII bytes) of a natural number, as produced by
Rust's `format!("{}")` on an unsigned integer. -/
def nat_dec_bytes (n : Nat) : List Nat :=
  nat_dec_go n n

/-- Escaping in `Message::to_packet`: a backslash becomes `\\`, a forward
slash becomes `\/`, every other byte passes through. -/
def escape (d : List Nat) : List Nat :=
  (d.map (fun b => if b = 92 then [92, 92] else if b = 47 then [92, 47] else [b])).flatten

/-- `Message::to_packet` from src/line_reversal/message.rs. -/
def Message.to_packet (m : Message) : List Nat :=
  match m.payload with
  | Payload.connect =>
      [47] ++ str_bytes "connect" ++ [47] ++ nat_dec_bytes m.session ++ [47]
  | Payload.close =>
      [47] ++ str_bytes "close" ++ [47] ++ nat_dec_bytes m.session ++ [47]
  | Payload.ack position =>
      [47] ++ str_bytes "ack" ++ [47] ++ nat_dec_bytes m.session ++ [47]
        ++ nat_dec_bytes position ++ [47]
  | Payload.data d position =>
      [47] ++ str_bytes "data" ++ [47] ++ nat_dec_bytes m.session ++ [47]
        ++ nat_dec_bytes position ++ [47] ++ escape d ++ [47]

/-- ASCII decimal digit test (nom's `digit1` character class). -/
def is_digit (b : Nat) : Bool :=
  48 ≤ b && b ≤ 57

/-- Value of a list of ASCII digit bytes, most significant first. -/
def digits_to_nat (ds : List Nat) : Nat :=
  ds.foldl (fun a d => a * 10 + (d - 48)) 0

/-- nom's `digit1`: the maximal nonempty ASCII-digit prefix, with the
remaining input; fails when the input does not start with a digit.
Returned as (remaining, digits) following nom's `IResult` order. -/
def digit1 (input : List Nat) : Option (List Nat × List Nat) :=
  let ds := input.takeWhile is_digit
  if ds.isEmpty then none else some (input.dropWhile is_digit, ds)

/-- `parse_u32_from_digits` from src/line_reversal/message.rs: `digit1`
followed by `str::parse::<u32>` (which rejects values ≥ 2^32). -/
def parse_u32_from_digits (input : List Nat) : Option (List Nat × Nat) :=
  match digit1 input with
  | none => none
  | some (rest, ds) =>
      let n := digits_to_nat ds
      if n < 2 ^ 32 then some (rest, n) else none

/-- nom's `char(c)`: consume exactly the byte `c`. -/
def parse_char (c : Nat) : List Nat → Option (List Nat)
  | [] => none
  | b :: rest => if b = c then some rest else none

/-- nom's `escaped_transform(is_not("\\/"), '\\', alt((tag("\\"), tag("/"))))`
as used in `parse_message`: unescape `\\` and `\/`, stop (successfully)
before an unescaped `/` or at end of input, fail when a backslash is not
followed by one of the two escapable bytes.  Returns (unescaped, remaining). -/
def escaped_transform : List Nat → Option (List Nat × List Nat)
  | [] => some ([], [])
  | b :: rest =>
      if b = 47 then some ([], b :: rest)
      else if b = 92 then
        match rest with
        | [] => none
        | b2 :: r =>
            if b2 = 92 then (escaped_transform r).map (fun pr => (92 :: pr.1, pr.2))
            else if b2 = 47 then (escaped_transform r).map (fun pr => (47 :: pr.1, pr.2))
            else none
      else (escaped_transform rest).map (fun pr => (b :: pr.1, pr.2))

/-- Outcome of `parse_message`: nom success with remaining input, a nom
error, or a Rust panic (the `.expect` on the message-kind parse). -/
inductive ParseOutcome (α : Type) : Type
  | ok (rest : List Nat) (val : α) : ParseOutcome α
  | error : ParseOutcome α
  | panicked : ParseOutcome α
deriving DecidableEq, Repr

/-- `parse_message` from src/line_reversal/message.rs.  The message kind is
parsed by `delimited(char('/'), is_not("/"), char('/'))` under `.expect`,
so a failure there is a panic, not an error. -/
def parse_message (input : List Nat) : ParseOutcome Message :=
  match parse_char 47 input with
  | none => ParseOutcome.panicked
  | some i1 =>
    let kind := i1.takeWhile (fun b => b != 47)
    if kind.isEmpty then ParseOutcome.panicked
    else
      match parse_char 47 (i1.drop kind.length) with
      | none => ParseOutcome.panicked
      | some i2 =>
        match parse_u32_from_digits i2 with
        | none => ParseOutcome.error
        | some (i3, session) =>
          if kind = str_bytes "connect" then
            ParseOutcome.ok i3 ⟨session, Payload.connect⟩
          else if kind = str_bytes "close" then
            ParseOutcome.ok i3 ⟨session, Payload.close⟩
          else if kind = str_bytes "ack" then
            match parse_char 47 i3 with
            | none => ParseOutcome.error
            | some i4 =>
              match parse_u32_from_digits i4 with
              | none => ParseOutcome.error
              | some (i5, position) =>
                match parse_char 47 i5 with
                | none => ParseOutcome.error
                | some _ => ParseOutcome.ok i3 ⟨session, Payload.ack position⟩
          else if kind = str_bytes "data" then
            match parse_char 47 i3 with
            | none => ParseOutcome.error
            | some i4 =>
              match parse_u32_from_digits i4 with
              | none => ParseOutcome.error
              | some (i5, position) =>
                match parse_char 47 i5 with
                | none => ParseOutcome.error
                | some i6 =>
                  match escaped_transform i6 with
                  | none => ParseOutcome.error
                  | some (d, _) =>
                    ParseOutcome.ok i6 ⟨session, Payload.data d position⟩
          else ParseOutcome.error

/-- `Message::parse`: run `parse_message` and discard the remaining input. -/
def Message.parse (bytes : List Nat) : Option Message :=
  match parse_message bytes with
  | ParseOutcome.ok _ m => some m
  | _ => none

/-- Well-formedness of a `Message` value as a Rust value: every `u32`
field actually fits in 32 bits. -/
def Message.wf (m : Message) : Bool :=
  decide (m.session < 2 ^ 32) &&
    (match m.payload with
     | Payload.ack p => decide (p < 2 ^ 32)
     | Payload.data _ p => decide (p < 2 ^ 32)
     | _ => true)

end message

namespace lrcp

open message

/-- `CONNECTION_TIMEOUT` from src/line_reversal/lrcp.rs, in seconds.  Its
doc comment there reads: if we receive no data from a connection for this
long, we will close it. -/
def CONNECTION_TIMEOUT : Nat := 20

/-- `RETRANSMISSION_TIMEOUT` from src/line_reversal/lrcp.rs, in seconds. -/
def RETRANSMISSION_TIMEOUT : Nat := 3

/-- UTF-8 continuation byte test. -/
def is_cont (b : Nat) : Bool := 128 ≤ b && b ≤ 191

/-- The replacement character U+FFFD. -/
def repl : Char := Char.ofNat 0xFFFD

/-- Allowed second byte of a three-byte sequence for a given first byte
(E0 excludes overlongs, ED excludes surrogates). -/
def cont3_ok (b b2 : Nat) : Bool :=
  if b = 224 then 160 ≤ b2 && b2 ≤ 191
  else if b = 237 then 128 ≤ b2 && b2 ≤ 159
  else is_cont b2

/-- Allowed second byte of a four-byte sequence for a given first byte
(F0 excludes overlongs, F4 caps at U+10FFFF). -/
def cont4_ok (b b2 : Nat) : Bool :=
  if b = 240 then 144 ≤ b2 && b2 ≤ 191
  else if b = 244 then 128 ≤ b2 && b2 ≤ 143
  else is_cont b2

/-- Rust's `String::from_utf8_lossy`: decode UTF-8, replacing each maximal
invalid subpart with U+FFFD, with the error lengths of
`core::str::run_utf8_validation` (1 for a bad leading or second byte,
2 resp. 3 when a longer sequence breaks at its third resp. fourth byte). -/
def from_utf8_lossy : List Nat → List Char
  | [] => []
  | b :: rest =>
    if b < 128 then Char.ofNat b :: from_utf8_lossy rest
    else if 194 ≤ b && b ≤ 223 then
      match rest with
      | b2 :: r2 =>
        if is_cont b2 then
          Char.ofNat ((b - 192) * 64 + (b2 - 128)) :: from_utf8_lossy r2
        else repl :: from_utf8_lossy (b2 :: r2)
      | [] => [repl]
    else if 224 ≤ b && b ≤ 239 then
      match rest with
      | b2 :: r2 =>
        if cont3_ok b b2 then
          match r2 with
          | b3 :: r3 =>
            if is_cont b3 then
              Char.ofNat ((b - 224) * 4096 + (b2 - 128) * 64 + (b3 - 128))
                :: from_utf8_lossy r3
            else repl :: from_utf8_lossy (b3 :: r3)
          | [] => [repl]
        else repl :: from_utf8_lossy (b2 :: r2)
      | [] => [repl]
    else if 240 ≤ b && b ≤ 244 then
      match rest with
      | b2 :: r2 =>
        if cont4_ok b b2 then
          match r2 with
          | b3 :: r3 =>
            if is_cont b3 then
              match r3 with
              | b4 :: r4 =>
                if is_cont b4 then
                  Char.ofNat ((b - 240) * 262144 + (b2 - 128) * 4096
                      + (b3 - 128) * 64 + (b4 - 128)) :: from_utf8_lossy r4
                else repl :: from_utf8_lossy (b4 :: r4)
              | [] => [repl]
            else repl :: from_utf8_lossy (b3 :: r3)
          | [] => [repl]
        else repl :: from_utf8_lossy (b2 :: r2)
      | [] => [repl]
    else repl :: from_utf8_lossy rest

/-- UTF-8 encoding of one scalar value (Rust `str::as_bytes`, per char). -/
def utf8_encode_char (c : Char) : List Nat :=
  let n := c.toNat
  if n < 128 then [n]
  else if n < 2048 then [192 + n / 64, 128 + n % 64]
  else if n < 65536 then [224 + n / 4096, 128 + n / 64 % 64, 128 + n % 64]
  else [240 + n / 262144, 128 + n / 4096 % 64, 128 + n / 64 % 64, 128 + n % 64]

/-- Rust `str::as_bytes` on our `List Char` model of `String`. -/
def as_bytes (l : List Char) : List Nat :=
  (l.map utf8_encode_char).flatten

/-- Rust `char::is_whitespace` (the Unicode `White_Space` property). -/
def rust_is_whitespace (c : Char) : Bool :=
  [9, 10, 11, 12, 13, 32, 133, 160, 5760, 8192, 8193, 8194, 8195, 8196,
    8197, 8198, 8199, 8200, 8201, 8202, 8232, 8233, 8239, 8287, 12288].contains c.toNat

/-- Rust `str::trim_end`: drop trailing whitespace characters. -/
def trim_end (l : List Char) : List Char :=
  (l.reverse.dropWhile rust_is_whitespace).reverse

/-- `reverse_line` from src/line_reversal/lrcp.rs:
`line.trim_end().chars().rev().collect()` followed by `push('\n')`. -/
def reverse_line (line : List Char) : List Char :=
  (trim_end line).reverse ++ ['\n']

/-- Rust `str::split_inclusive(sep)`: split after every separator, keeping
the separator; a trailing segment without separator is kept; the empty
string yields no segments. -/
def split_inclusive (sep : Char) (l : List Char) : List (List Char) :=
  l.foldr
    (fun c acc =>
      match acc with
      | [] => [[c]]
      | seg :: rest => if c = sep then [c] :: seg :: rest else (c :: seg) :: rest)
    []

/-- Rust `str::ends_with('\n')` on a segment. -/
def ends_with_newline (l : List Char) : Bool :=
  l.getLast? == some '\n'

/-- The buffer update after the flush loop in `handle_message`'s Data
branch: if the last `split_inclusive` segment ends in a newline the buffer
is cleared, otherwise it is replaced by that trailing segment. -/
def flush_buffer (buf : List Char) : List Char :=
  match (split_inclusive '\n' buf).getLast? with
  | none => buf
  | some last => if ends_with_newline last then [] else last

/-- Rust `slice::chunks(900)` as used by `chunk_lines`: the `fuel`
argument only drives structural recursion and never runs out when it is
at least the list length (each step consumes at least one element). -/
def chunks_900_go : Nat → List Nat → List (List Nat)
  | _, [] => []
  | 0, l => [l]
  | fuel + 1, l => l.take 900 :: chunks_900_go fuel (l.drop 900)

/-- Rust `slice::chunks(900)` as used by `chunk_lines`. -/
def chunks_900 (l : List Nat) : List (List Nat) :=
  chunks_900_go l.length l

/-- `chunk_lines` from src/line_reversal/lrcp.rs: chunk the line's UTF-8
bytes into pieces of at most 900 bytes and lossily re-decode each piece. -/
def chunk_lines (line : List Char) : List (List Char) :=
  (chunks_900 (as_bytes line)).map from_utf8_lossy

/-- `LrcpSession` state from src/line_reversal/lrcp.rs.  The socket and
peer address are I/O handles and are not part of the state model;
`rx_closed` models whether `message_rx` has been closed (the effect of
`Receiver::close` in `LrcpSession::close`). -/
structure LrcpSession : Type where
  id : Nat
  connected : Bool
  data : List Char
  bytes_received : Nat
  bytes_sent : Nat
  bytes_acked : Nat
  rx_closed : Bool
deriving DecidableEq, Repr

/-- Result of processing one inbound message: the new session state, the
packets sent directly on the socket (acks and closes, in order), the chunk
batches handed to spawned retransmission supervisors, and the Rust
`Result` (`true` for `Ok(())`, `false` for the `Err` that
`LrcpSession::close` returns). -/
structure StepResult : Type where
  st : LrcpSession
  sent : List Message
  spawned : List (List Message)
  ok : Bool
deriving DecidableEq, Repr

/-- `LrcpSession::close`: send a `Close` packet, close the inbound queue,
return `Err`. -/
def close (st : LrcpSession) : StepResult :=
  ⟨{st with rx_closed := true}, [Message.new_close st.id], [], false⟩

/-- `LrcpSession::send_line`: chunk the line and build one `Data` message
per chunk, every one with `position := self.bytes_sent` (the source never
changes `bytes_sent`; `send_line` takes `&self`).  The batch is handed to
a spawned `send_messages` supervisor. -/
def send_line (st : LrcpSession) (line : List Char) : List Message :=
  (chunk_lines line).map
    (fun chunk => Message.new_data st.id (as_bytes chunk) st.bytes_sent)

/-- `LrcpSession::handle_message` from src/line_reversal/lrcp.rs. -/
def handle_message (st : LrcpSession) (msg : Message) : StepResult :=
  match msg.payload with
  | Payload.connect =>
      ⟨{st with connected := true}, [Message.new_ack st.id 0], [], true⟩
  | Payload.close => close st
  | Payload.ack position =>
      if st.connected = false then close st
      else if position > st.bytes_sent then close st
      else ⟨{st with bytes_acked := position}, [], [], true⟩
  | Payload.data d position =>
      if st.connected = false then close st
      else if position > st.bytes_received then
        ⟨st, [Message.new_ack st.id st.bytes_received], [], true⟩
      else
        let data_position := st.bytes_received - position
        if data_position > d.length then ⟨st, [], [], true⟩
        else
          let new_data := d.drop data_position
          let br := (st.bytes_received + new_data.length) % 2 ^ 32
          let buf := st.data ++ from_utf8_lossy new_data
          let st1 := {st with data := buf, bytes_received := br}
          if new_data.contains 10 then
            let lines := (split_inclusive '\n' buf).filter ends_with_newline
            let spawned := lines.map (fun line => send_line st1 (reverse_line line))
            ⟨{st1 with data := flush_buffer buf}, [Message.new_ack st.id br], spawned, true⟩
          else
            ⟨st1, [Message.new_ack st.id br], [], true⟩

/-- `LrcpSession::run`: the processing loop reacts only to messages
received from the inbound queue (the `select!` has a single branch and no
timer); it processes them in order, ignoring the `Err` results.  Returns
the final state and every packet sent directly on the socket. -/
def run_session (st : LrcpSession) (inbound : List Message) : LrcpSession × List Message :=
  inbound.foldl
    (fun acc m =>
      let r := handle_message acc.1 m
      (r.st, acc.2 ++ r.sent))
    (st, [])

/-- The dispatcher's send into a session's inbound queue: a send on a
closed `mpsc` channel fails, so once `rx_closed` is set no further message
enters the queue. -/
def queue_push (st : LrcpSession) (pending : List Message) (m : Message) : List Message :=
  if st.rx_closed then pending else pending ++ [m]

/-- The loop body of one `send_messages` tick: a `Data` message whose
`position` is strictly greater than `most_recent_ack` is appended to the
resend list and clears `all_messages_acked`; every other message is
skipped. -/
def tick_step (most_recent_ack : Nat) (acc : List Message × Bool) (m : Message) :
    List Message × Bool :=
  match m.payload with
  | Payload.data _ position =>
      if position > most_recent_ack then (acc.1 ++ [m], false) else acc
  | _ => acc

/-- Whether one tick of `send_messages` resends a given queued message. -/
def tick_resend (most_recent_ack : Nat) (m : Message) : Bool :=
  match m.payload with
  | Payload.data _ position => decide (position > most_recent_ack)
  | _ => false

/-- One tick of `send_messages` from src/line_reversal/lrcp.rs: re-read
`bytes_acked`; resend every `Data` chunk whose `position` is strictly
greater than it; report whether the loop breaks (no such chunk).  Returns
the resent messages in order and the `all_messages_acked` flag. -/
def send_messages_tick (messages : List Message) (most_recent_ack : Nat) :
    List Message × Bool :=
  messages.foldl (tick_step most_recent_ack) ([], true)

end lrcp

namespace protocol

/-- `Payload` from src/line_reversal/protocol.rs (positions are `i32`,
the data segment is kept as raw bytes, unescaped). -/
inductive Payload : Type
  | connect : Payload
  | data (data : List Nat) (pos : Int) : Payload
  | ack (pos : Int) : Payload
  | close : Payload
deriving DecidableEq, Repr

/-- `Packet` from src/line_reversal/protocol.rs (`SessionId(pub i32)`). -/
structure Packet : Type where
  session_id : Int
  payload : Payload
deriving DecidableEq, Repr

/-- Outcome of `Packet::try_from`: `Ok`, an `anyhow` error, or a Rust
panic (an out-of-range slice index). -/
inductive TryFromResult : Type
  | ok (p : Packet) : TryFromResult
  | error : TryFromResult
  | panicked : TryFromResult
deriving DecidableEq, Repr

/-- Rust `str::parse::<i32>` on a byte slice: optional sign, then one or
more ASCII digits, value within the `i32` range.  The source first passes
the slice through `String::from_utf8_lossy` (session id) or `str::from_utf8`
(positions); either way any byte that is not an ASCII digit or a leading
sign makes the parse fail, so the byte-level model is equivalent. -/
def parse_i32 (bytes : List Nat) : Option Int :=
  let digits (ds : List Nat) (neg : Bool) : Option Int :=
    if ds.isEmpty then none
    else if ds.all message.is_digit then
      let n := message.digits_to_nat ds
      if neg then (if n ≤ 2 ^ 31 then some (-(n : Int)) else none)
      else (if n ≤ 2 ^ 31 - 1 then some (n : Int) else none)
    else none
  match bytes with
  | 43 :: rest => digits rest false
  | 45 :: rest => digits rest true
  | _ => digits bytes false

/-- Rust slice `bytes[a..b]` (callers must keep `a ≤ b ≤ len`; the one
call site that can violate this is modelled as a panic in `try_from`). -/
def slice (bytes : List Nat) (a b : Nat) : List Nat :=
  (bytes.drop a).take (b - a)

/-- Index of the first `/` in `l`, as `iter().position(|&x| x == b'/')`. -/
def find_slash (l : List Nat) : Option Nat :=
  l.findIdx? (fun b => b == 47)

/-- `Packet::try_from(&[u8])` from src/line_reversal/protocol.rs.  Note
the `ack` arm slices `bytes[third_slash + 1..len - 1]`, which panics when
the third slash is the final byte (start of range past its end). -/
def try_from (bytes : List Nat) : TryFromResult :=
  let len := bytes.length
  if bytes.isEmpty then TryFromResult.error
  else if ¬(bytes.getD 0 0 = 47 ∧ bytes.getD (len - 1) 0 = 47) then TryFromResult.error
  else
    match find_slash (bytes.drop 1) with
    | none => TryFromResult.error
    | some i =>
      let second_slash := 1 + i
      match find_slash (bytes.drop (second_slash + 1)) with
      | none => TryFromResult.error
      | some j =>
        let third_slash := 1 + second_slash + j
        match parse_i32 (slice bytes (second_slash + 1) third_slash) with
        | none => TryFromResult.error
        | some sid =>
          let kind := slice bytes 1 second_slash
          if kind = message.str_bytes "connect" then
            TryFromResult.ok ⟨sid, Payload.connect⟩
          else if kind = message.str_bytes "data" then
            match find_slash (bytes.drop (third_slash + 1)) with
            | none => TryFromResult.error
            | some k =>
              let fourth_slash := 1 + third_slash + k
              if fourth_slash = len - 1 then TryFromResult.error
              else
                match parse_i32 (slice bytes (third_slash + 1) fourth_slash) with
                | none => TryFromResult.error
                | some pos =>
                    TryFromResult.ok ⟨sid, Payload.data (slice bytes (fourth_slash + 1) (len - 1)) pos⟩
          else if kind = message.str_bytes "ack" then
            if third_slash + 1 > len - 1 then TryFromResult.panicked
            else
              match parse_i32 (slice bytes (third_slash + 1) (len - 1)) with
              | none => TryFromResult.error
              | some pos => TryFromResult.ok ⟨sid, Payload.ack pos⟩
          else if kind = message.str_bytes "close" then
            TryFromResult.ok ⟨sid, Payload.close⟩
          else TryFromResult.error

end protocol

namespace lrcp

open message

/-- A freshly connected session with id 7 (state after `Connect`). -/
def st_c1 : LrcpSession :=
  ⟨7, true, [], 0, 0, 0, false⟩

/-- Result of processing `Data{position: 0, data: "ab\n"}` on `st_c1`. -/
def c1_r1 : StepResult :=
  handle_message st_c1 ⟨7, Payload.data [97, 98, 10] 0⟩

/-- Result of then processing `Data{position: 3, data: "cd\n"}`. -/
def c1_r2 : StepResult :=
  handle_message c1_r1.st ⟨7, Payload.data [99, 100, 10] 3⟩

end lrcp

open message lrcp

/-- C1: the source assigns every chunk of a flushed line the same
`position` (the current `bytes_sent`) and never increments `bytes_sent`,
so outbound positions repeat across the stream instead of being strictly
increasing and contiguous: flushing the line `ab\n` and then the line
`cd\n` on a fresh connected session produces two `Data` chunks that both
carry position 0, and `bytes_sent` stays 0 throughout. -/
theorem outbound_positions_repeat :
    c1_r1.spawned = [[⟨7, message.Payload.data [98, 97, 10] 0⟩]]
    ∧ c1_r2.spawned = [[⟨7, message.Payload.data [100, 99, 10] 0⟩]]
    ∧ c1_r1.st.bytes_sent = 0
    ∧ c1_r2.st.bytes_sent = 0 := by
  decide

/-- C4: `LrcpSession::run` reacts only to messages arriving on the
inbound queue — the `select!` has a single branch and no idle timer, so
`CONNECTION_TIMEOUT` is never consulted.  Over any interval in which no
inbound message is processed the session neither changes state nor sends
anything; in particular it never transitions to closed nor replies
`Close` on inactivity. -/
theorem run_session_no_inactivity_close (st : LrcpSession) :
    run_session st [] = (st, []) ∧ CONNECTION_TIMEOUT = 20 := by
  exact ⟨rfl, rfl⟩

/-- C2 counterexample: a batch holding one `Data` chunk at position 0,
with `bytes_acked = 0` (nothing acknowledged, so the chunk is not
covered and `position ≥ bytes_acked`), is not resent at the tick — the
source's test is `position > most_recent_ack`, strictly — and the tick
reports every message acknowledged (the supervisor exits). -/
theorem tick_misses_chunk_at_acked_position :
    send_messages_tick [⟨1, message.Payload.data [104, 101, 108, 108, 111] 0⟩] 0 = ([], true)
    ∧ 0 ≥ 0 := by
  decide

/-- Foldl characterisation of the `send_messages` tick loop. -/
theorem tick_step_foldl (ack : Nat) (msgs : List Message) :
    ∀ (acc : List Message) (b : Bool),
      msgs.foldl (tick_step ack) (acc, b)
        = (acc ++ msgs.filter (tick_resend ack),
           b && msgs.all (fun m => !tick_resend ack m)) := by
  induction msgs with
  | nil => intro acc b; simp
  | cons m t ih =>
    intro acc b
    obtain ⟨s, pl⟩ := m
    cases pl with
    | data d pos =>
      by_cases hpos : pos > ack
      · have hstep : tick_step ack (acc, b) ⟨s, message.Payload.data d pos⟩
            = (acc ++ [⟨s, message.Payload.data d pos⟩], false) := by
          simp [tick_step, hpos]
        have hres : tick_resend ack ⟨s, message.Payload.data d pos⟩ = true := by
          simp [tick_resend, hpos]
        rw [List.foldl_cons, hstep, ih]
        simp [List.filter_cons, List.all_cons, hres, List.append_assoc]
      · have hstep : tick_step ack (acc, b) ⟨s, message.Payload.data d pos⟩ = (acc, b) := by
          simp [tick_step, hpos]
        have hres : tick_resend ack ⟨s, message.Payload.data d pos⟩ = false := by
          simp [tick_resend, hpos]
        rw [List.foldl_cons, hstep, ih]
        simp [List.filter_cons, List.all_cons, hres]
    | connect =>
      have hstep : tick_step ack (acc, b) ⟨s, message.Payload.connect⟩ = (acc, b) := rfl
      have hres : tick_resend ack ⟨s, message.Payload.connect⟩ = false := rfl
      rw [List.foldl_cons, hstep, ih]
      simp [List.filter_cons, List.all_cons, hres]
    | close =>
      have hstep : tick_step ack (acc, b) ⟨s, message.Payload.close⟩ = (acc, b) := rfl
      have hres : tick_resend ack ⟨s, message.Payload.close⟩ = false := rfl
      rw [List.foldl_cons, hstep, ih]
      simp [List.filter_cons, List.all_cons, hres]
    | ack p =>
      have hstep : tick_step ack (acc, b) ⟨s, message.Payload.ack p⟩ = (acc, b) := rfl
      have hres : tick_resend ack ⟨s, message.Payload.ack p⟩ = false := rfl
      rw [List.foldl_cons, hstep, ih]
      simp [List.filter_cons, List.all_cons, hres]

/-- C2 (amended): on each tick the supervisor resends exactly those
queued `Data` chunks whose position is *strictly greater* than the
session's current `bytes_acked` (a chunk whose position equals
`bytes_acked` is treated as covered), replaying the originally queued
messages unchanged and in order; the tick reports all-acknowledged — and
the supervisor exits — exactly when no queued `Data` chunk has position
strictly greater than `bytes_acked`. -/
theorem send_messages_tick_resends_strictly_unacked (msgs : List Message) (ack : Nat) :
    (send_messages_tick msgs ack).1 = msgs.filter (tick_resend ack)
    ∧ ((send_messages_tick msgs ack).2 = true ↔
        ∀ m ∈ msgs, ∀ d pos, m.payload = message.Payload.data d pos → pos ≤ ack) := by
  unfold send_messages_tick
  rw [tick_step_foldl ack msgs [] true]
  refine ⟨by simp, ?_⟩
  simp only [List.nil_append, Bool.true_and, List.all_eq_true]
  constructor
  · intro h m hm d pos hpl
    have hr := h m hm
    obtain ⟨s0, pl0⟩ := m
    have hpl2 : pl0 = message.Payload.data d pos := hpl
    subst hpl2
    simpa [tick_resend] using hr
  · intro h m hm
    obtain ⟨s, pl⟩ := m
    cases pl with
    | data d pos =>
      have := h ⟨s, message.Payload.data d pos⟩ hm d pos rfl
      simpa [tick_resend] using this
    | connect => simp [tick_resend]
    | close => simp [tick_resend]
    | ack p => simp [tick_resend]

/-- C3 counterexample: with `bytes_sent = 10`, processing `Ack{5}` and
then the stale `Ack{3}` leaves `bytes_acked = 3`, not
`max(bytes_acked, position) = 5` — the source assigns
`*acked_bytes = position` unconditionally, so a stale lower `Ack`
regresses the high-water mark. -/
theorem ack_bytes_acked_regresses :
    (handle_message
        (handle_message ⟨1, true, [], 0, 10, 0, false⟩ ⟨1, message.Payload.ack 5⟩).st
        ⟨1, message.Payload.ack 3⟩).st.bytes_acked = 3
    ∧ (3 : Nat) ≠ max 5 3 := by
  decide

/-- C3 (amended): for every `Ack{position}` processed while connected
with `position ≤ bytes_sent`, the session overwrites `bytes_acked` with
`position` unconditionally (not with `max(bytes_acked, position)`), so
`bytes_acked` is not monotonic: a stale lower `Ack` arriving after a
higher one regresses it to the lower value. -/
theorem ack_sets_bytes_acked_to_position (st : LrcpSession) (s p : Nat)
    (hc : st.connected = true) (hp : p ≤ st.bytes_sent) :
    handle_message st ⟨s, message.Payload.ack p⟩
      = ⟨{st with bytes_acked := p}, [], [], true⟩ := by
  have hgt : ¬(p > st.bytes_sent) := by omega
  simp [handle_message, hc, hgt]

/-- Witness for C3's amended theorem: a connected session that has
already seen `Ack{5}` (`bytes_acked = 5`, `bytes_sent = 10`) processes
the stale `Ack{3}` and ends with `bytes_acked = 3`. -/
theorem ack_sets_bytes_acked_to_position_witness :
    handle_message ⟨1, true, [], 0, 10, 5, false⟩ ⟨1, message.Payload.ack 3⟩
      = ⟨⟨1, true, [], 0, 10, 3, false⟩, [], [], true⟩ := by
  exact ack_sets_bytes_acked_to_position ⟨1, true, [], 0, 10, 5, false⟩ 1 3 rfl (by decide)

/-- C8: a `Data` chunk with `position > bytes_received` processed while
connected leaves the whole session state unchanged (nothing is buffered,
`bytes_received` keeps its value), spawns nothing, and elicits exactly
one `Ack` carrying the prior `bytes_received`. -/
theorem data_gap_reacks_prior_bytes_received (st : LrcpSession) (s : Nat)
    (d : List Nat) (p : Nat) (hc : st.connected = true) (hp : p > st.bytes_received) :
    handle_message st ⟨s, message.Payload.data d p⟩
      = ⟨st, [Message.new_ack st.id st.bytes_received], [], true⟩ := by
  simp [handle_message, hc, hp]

/-- Witness for C8: a connected session with `bytes_received = 5`
receiving `Data{position: 9}` replies `Ack{5}` and is unchanged. -/
theorem data_gap_reacks_prior_bytes_received_witness :
    handle_message ⟨1, true, ['x'], 5, 0, 0, false⟩ ⟨1, message.Payload.data [104] 9⟩
      = ⟨⟨1, true, ['x'], 5, 0, 0, false⟩, [Message.new_ack 1 5], [], true⟩ := by
  exact data_gap_reacks_prior_bytes_received ⟨1, true, ['x'], 5, 0, 0, false⟩ 1 [104] 9 rfl
    (by decide)

/-- C7: a protocol violation — an `Ack` whose position exceeds
`bytes_sent`, or an `Ack` or `Data` processed before the session is
connected — closes the session: exactly one `Close` reply is sent, the
inbound queue is closed (`rx_closed`), the handler returns `Err`, and no
further message can enter the session's queue. -/
theorem protocol_violation_closes_session (st : LrcpSession) (msg : Message)
    (h : (∃ p, msg.payload = message.Payload.ack p
            ∧ (st.connected = false ∨ p > st.bytes_sent))
       ∨ (∃ d p, msg.payload = message.Payload.data d p ∧ st.connected = false)) :
    handle_message st msg
      = ⟨{st with rx_closed := true}, [Message.new_close st.id], [], false⟩
    ∧ ∀ (pending : List Message) (m2 : Message),
        queue_push (handle_message st msg).st pending m2 = pending := by
  have heq : handle_message st msg
      = ⟨{st with rx_closed := true}, [Message.new_close st.id], [], false⟩ := by
    obtain ⟨s, pl⟩ := msg
    rcases h with ⟨p, hpl, hcase⟩ | ⟨d, p, hpl, hconn⟩
    · cases hpl
      rcases hcase with hconn | hgt
      · simp [handle_message, close, hconn]
      · by_cases hconn : st.connected = false
        · simp [handle_message, close, hconn]
        · simp [handle_message, close, hconn, hgt]
    · cases hpl
      simp [handle_message, close, hconn]
  refine ⟨heq, ?_⟩
  intro pending m2
  rw [heq]
  simp [queue_push]

/-- Witness for C7: a not-yet-connected session receiving `Ack{0}` is
closed and its queue accepts nothing further. -/
theorem protocol_violation_closes_session_witness :
    handle_message ⟨9, false, [], 0, 0, 0, false⟩ ⟨9, message.Payload.ack 0⟩
      = ⟨⟨9, false, [], 0, 0, 0, true⟩, [Message.new_close 9], [], false⟩
    ∧ ∀ (pending : List Message) (m2 : Message),
        queue_push (handle_message ⟨9, false, [], 0, 0, 0, false⟩
            ⟨9, message.Payload.ack 0⟩).st pending m2 = pending := by
  exact protocol_violation_closes_session ⟨9, false, [], 0, 0, 0, false⟩
    ⟨9, message.Payload.ack 0⟩ (Or.inl ⟨0, rfl, Or.inl rfl⟩)


/-- C10: for every `Data` chunk accepted while connected (`position ≤
bytes_received` and a non-empty unseen suffix), `bytes_received` advances
by exactly the raw byte length of the unseen suffix
`bytes[bytes_received - position ..]` and that new value is acked, while
the text appended to the reassembly buffer is the *lossy UTF-8 decoding*
of the suffix (invalid sequences become U+FFFD), possibly followed by the
line-flush buffer update — so the buffered text need not equal the raw
received bytes. -/
theorem data_append_lossy_utf8 (st : LrcpSession) (s : Nat) (d : List Nat) (p : Nat)
    (hc : st.connected = true) (hle : p ≤ st.bytes_received)
    (hlt : st.bytes_received - p < d.length)
    (hov : st.bytes_received + (d.length - (st.bytes_received - p)) < 2 ^ 32) :
    (handle_message st ⟨s, message.Payload.data d p⟩).st.bytes_received
        = st.bytes_received + (d.drop (st.bytes_received - p)).length
    ∧ (handle_message st ⟨s, message.Payload.data d p⟩).sent
        = [Message.new_ack st.id
            (st.bytes_received + (d.drop (st.bytes_received - p)).length)]
    ∧ (handle_message st ⟨s, message.Payload.data d p⟩).st.data
        = (if (d.drop (st.bytes_received - p)).contains 10
           then flush_buffer (st.data ++ from_utf8_lossy (d.drop (st.bytes_received - p)))
           else st.data ++ from_utf8_lossy (d.drop (st.bytes_received - p))) := by
  have hgap : ¬(p > st.bytes_received) := by omega
  have hdup : ¬(st.bytes_received - p > d.length) := by omega
  have hmod : (st.bytes_received + (d.drop (st.bytes_received - p)).length) % 2 ^ 32
      = st.bytes_received + (d.drop (st.bytes_received - p)).length := by
    rw [List.length_drop]
    exact Nat.mod_eq_of_lt hov
  have hn : ¬(st.connected = false) := by simp [hc]
  simp only [handle_message, if_neg hn, if_neg hgap, if_neg hdup, hmod]
  refine ⟨?_, ?_, ?_⟩ <;> split <;> simp [*]

/-- Witness for C10: a fresh connected session receiving
`Data{position: 0, bytes: [0xFF, 0x61]}` (invalid UTF-8) advances
`bytes_received` by 2, acks 2, and buffers the lossy decoding
U+FFFD 'a' of the suffix — not the raw bytes. -/
theorem data_append_lossy_utf8_witness :
    (handle_message ⟨3, true, [], 0, 0, 0, false⟩ ⟨3, message.Payload.data [255, 97] 0⟩).st.bytes_received
        = 0 + ([255, 97].drop (0 - 0)).length
    ∧ (handle_message ⟨3, true, [], 0, 0, 0, false⟩ ⟨3, message.Payload.data [255, 97] 0⟩).sent
        = [Message.new_ack 3 (0 + ([255, 97].drop (0 - 0)).length)]
    ∧ (handle_message ⟨3, true, [], 0, 0, 0, false⟩ ⟨3, message.Payload.data [255, 97] 0⟩).st.data
        = (if ([255, 97].drop (0 - 0)).contains 10
           then flush_buffer ([] ++ from_utf8_lossy ([255, 97].drop (0 - 0)))
           else [] ++ from_utf8_lossy ([255, 97].drop (0 - 0))) := by
  exact data_append_lossy_utf8 ⟨3, true, [], 0, 0, 0, false⟩ 3 [255, 97] 0
    rfl (by decide) (by decide) (by decide)

/-- Dropping trailing whitespace from `l ++ ['\n']` gives back `l` when
`l` does not itself end in a whitespace character. -/
theorem trim_end_append_newline (l : List Char)
    (hl : l.getLast?.all (fun c => !rust_is_whitespace c) = true) :
    trim_end (l ++ ['\n']) = l := by
  unfold trim_end
  rw [List.reverse_append]
  have hnl : rust_is_whitespace '\n' = true := by decide
  simp only [List.reverse_cons, List.reverse_nil, List.nil_append, List.singleton_append,
    List.dropWhile_cons, hnl, if_true]
  cases hrev : l.reverse with
  | nil =>
    have : l = [] := by simpa using congrArg List.reverse hrev
    subst this
    simp
  | cons c t =>
    have hlast : l.getLast? = some c := by
      rw [← List.head?_reverse, hrev]
      rfl
    have hc : rust_is_whitespace c = false := by
      rw [hlast] at hl
      simpa using hl
    have h2 : l = (c :: t).reverse := by
      have h3 := congrArg List.reverse hrev
      simpa using h3
    rw [List.dropWhile_cons]
    simp [hc]
    simpa using h2.symm

/-- C6 counterexample: the line `"ab \n"` (no embedded newline) is not a
fixed point of `reverse_line ∘ reverse_line`: `trim_end` strips *all*
trailing whitespace, not only the newline, so the trailing space is lost
and the double application yields `"ab\n"`. -/
theorem reverse_line_not_involutive_on_trailing_space :
    reverse_line (reverse_line ['a', 'b', ' ', '\n']) ≠ ['a', 'b', ' ', '\n'] := by
  decide

/-- C6 (amended): `reverse_line` takes a line, strips *all trailing
whitespace* (including the newline), reverses the remaining characters
and appends a newline; hence `reverse_line (reverse_line line) = line`
holds for a line `body ++ "\n"` with no embedded newline whenever the
body neither ends nor begins with a whitespace character (trailing
whitespace is dropped by the inner application, leading whitespace —
which becomes trailing after reversal — by the outer one). -/
theorem reverse_line_involution (body : List Char)
    (hnl : ('\n' : Char) ∉ body)
    (hhead : body.head?.all (fun c => !rust_is_whitespace c) = true)
    (hlast : body.getLast?.all (fun c => !rust_is_whitespace c) = true) :
    reverse_line (reverse_line (body ++ ['\n'])) = body ++ ['\n'] := by
  unfold reverse_line
  rw [trim_end_append_newline body hlast]
  rw [trim_end_append_newline body.reverse (by rw [List.getLast?_reverse]; exact hhead)]
  rw [List.reverse_reverse]

/-- Witness for C6's amended theorem at the line `"ab\n"`. -/
theorem reverse_line_involution_witness :
    reverse_line (reverse_line (['a', 'b'] ++ ['\n'])) = ['a', 'b'] ++ ['\n'] := by
  exact reverse_line_involution ['a', 'b'] (by decide) (by decide) (by decide)

/-- C9: `Packet::try_from` is *not* total on non-grammar inputs: the
packet `"/ack/5/"` (a three-slash ack missing its POSITION field) drives
the slice `bytes[third_slash + 1..len - 1]` out of range — start 7, end
6 — which panics instead of returning an error; and a data packet with
an empty DATA segment, `"/data/123/0//"`, is *accepted* with an empty
payload rather than rejected (only the four-slash form `"/data/1/2/"`,
where the fourth slash is the final byte, is rejected).  The remaining
conjuncts confirm the error cases the claim lists: empty input, missing
leading/trailing slash, unknown type tag, malformed or overflowing
(beyond `i32`) integer, missing delimiter. -/
theorem try_from_panics_and_accepts_empty_data :
    protocol.try_from (str_bytes "/ack/5/") = protocol.TryFromResult.panicked
    ∧ protocol.try_from (str_bytes "/data/123/0//")
        = protocol.TryFromResult.ok ⟨123, protocol.Payload.data [] 0⟩
    ∧ protocol.try_from [] = protocol.TryFromResult.error
    ∧ protocol.try_from (str_bytes "xyz") = protocol.TryFromResult.error
    ∧ protocol.try_from (str_bytes "/foo/1/") = protocol.TryFromResult.error
    ∧ protocol.try_from (str_bytes "/ack/1/abc/") = protocol.TryFromResult.error
    ∧ protocol.try_from (str_bytes "/ack/1/2147483648/") = protocol.TryFromResult.error
    ∧ protocol.try_from (str_bytes "/connect") = protocol.TryFromResult.error
    ∧ protocol.try_from (str_bytes "/data/1/2/") = protocol.TryFromResult.error := by
  decide

/-- The maximal `takeWhile` prefix of `l ++ c :: r` is `l` when every
element of `l` satisfies the predicate and `c` does not. -/
theorem takeWhile_append_cons {α : Type} (p : α → Bool) (l : List α) (c : α) (r : List α)
    (hl : ∀ b ∈ l, p b = true) (hc : p c = false) :
    (l ++ c :: r).takeWhile p = l := by
  induction l with
  | nil => simp [List.takeWhile_cons, hc]
  | cons a t ih =>
    have ha : p a = true := hl a (by simp)
    simp [List.takeWhile_cons, ha]
    exact ih (fun b hb => hl b (by simp [hb]))

/-- Companion to `takeWhile_append_cons` for `dropWhile`. -/
theorem dropWhile_append_cons {α : Type} (p : α → Bool) (l : List α) (c : α) (r : List α)
    (hl : ∀ b ∈ l, p b = true) (hc : p c = false) :
    (l ++ c :: r).dropWhile p = c :: r := by
  induction l with
  | nil => simp [List.dropWhile_cons, hc]
  | cons a t ih =>
    have ha : p a = true := hl a (by simp)
    simp [List.dropWhile_cons, ha]
    exact ih (fun b hb => hl b (by simp [hb]))

/-- Every byte produced by `nat_dec_go` is an ASCII digit. -/
theorem nat_dec_go_digits : ∀ (fuel n : Nat), ∀ b ∈ nat_dec_go fuel n, is_digit b = true := by
  intro fuel
  induction fuel with
  | zero =>
    intro n b hb
    simp [nat_dec_go] at hb
    subst hb
    simp [is_digit]
    omega
  | succ f ih =>
    intro n b hb
    rw [nat_dec_go] at hb
    by_cases h : n < 10
    · simp [h] at hb
      subst hb
      simp [is_digit]
      omega
    · simp [h] at hb
      rcases hb with h1 | h1
      · exact ih (n / 10) b h1
      · subst h1
        simp [is_digit]
        omega

/-- Folding the decimal-accumulator over `nat_dec_go fuel n` recovers `n`
(shifted under the prior accumulator), provided the fuel suffices. -/
theorem nat_dec_go_val : ∀ (fuel n a : Nat), n ≤ fuel →
    (nat_dec_go fuel n).foldl (fun x d => x * 10 + (d - 48)) a
      = a * 10 ^ (nat_dec_go fuel n).length + n := by
  intro fuel
  induction fuel with
  | zero =>
    intro n a h
    have hn : n = 0 := by omega
    subst hn
    simp [nat_dec_go]
  | succ f ih =>
    intro n a h
    rw [nat_dec_go]
    by_cases hn : n < 10
    · simp [hn]
    · simp only [hn, if_false]
      rw [List.foldl_append]
      rw [ih (n / 10) a (by omega)]
      simp only [List.foldl_cons, List.foldl_nil, List.length_append, List.length_cons,
        List.length_nil]
      have h48 : 48 + n % 10 - 48 = n % 10 := by omega
      rw [h48, pow_succ]
      have hdm : n / 10 * 10 + n % 10 = n := by omega
      set L := (nat_dec_go f (n / 10)).length with hL
      have : (a * 10 ^ L + n / 10) * 10 + n % 10 = a * (10 ^ L * 10) + (n / 10 * 10 + n % 10) := by
        ring
      rw [this, hdm]

/-- The decimal digits of `n` evaluate back to `n`. -/
theorem digits_to_nat_nat_dec_bytes (n : Nat) : digits_to_nat (nat_dec_bytes n) = n := by
  unfold digits_to_nat nat_dec_bytes
  have h := nat_dec_go_val n n 0 (Nat.le_refl n)
  simpa using h

/-- The decimal representation of `n` consists of digit bytes only. -/
theorem nat_dec_bytes_digits (n : Nat) : ∀ b ∈ nat_dec_bytes n, is_digit b = true :=
  nat_dec_go_digits n n

/-- The decimal representation is never empty. -/
theorem nat_dec_bytes_ne_nil (n : Nat) : nat_dec_bytes n ≠ [] := by
  unfold nat_dec_bytes
  cases n with
  | zero => simp [nat_dec_go]
  | succ m =>
    rw [nat_dec_go]
    split <;> simp

/-- `digit1` on a decimal representation followed by a slash consumes
exactly the digits. -/
theorem digit1_round (n : Nat) (r : List Nat) :
    digit1 (nat_dec_bytes n ++ 47 :: r) = some (47 :: r, nat_dec_bytes n) := by
  unfold digit1
  rw [takeWhile_append_cons is_digit (nat_dec_bytes n) 47 r (nat_dec_bytes_digits n) (by decide)]
  rw [dropWhile_append_cons is_digit (nat_dec_bytes n) 47 r (nat_dec_bytes_digits n) (by decide)]
  have hne : (nat_dec_bytes n).isEmpty = false := by
    cases h : nat_dec_bytes n with
    | nil => exact absurd h (nat_dec_bytes_ne_nil n)
    | cons a t => rfl
  simp [hne]

/-- `parse_u32_from_digits` inverts the decimal encoding of any `u32`. -/
theorem parse_u32_round (n : Nat) (hn : n < 2 ^ 32) (r : List Nat) :
    parse_u32_from_digits (nat_dec_bytes n ++ 47 :: r) = some (47 :: r, n) := by
  unfold parse_u32_from_digits
  rw [digit1_round]
  have hn2 : n < 4294967296 := by
    have h32 : (2 : Nat) ^ 32 = 4294967296 := by norm_num
    omega
  simp [digits_to_nat_nat_dec_bytes, hn2]

/-- `escaped_transform` inverts `escape` up to the terminating slash. -/
theorem escaped_transform_escape (d r : List Nat) :
    escaped_transform (escape d ++ 47 :: r) = some (d, 47 :: r) := by
  induction d with
  | nil =>
    rw [show escape [] ++ 47 :: r = 47 :: r from by simp [escape]]
    rw [escaped_transform.eq_def]
    simp
  | cons b t ih =>
    by_cases h92 : b = 92
    · subst h92
      rw [show escape (92 :: t) ++ 47 :: r = 92 :: 92 :: (escape t ++ 47 :: r) from by
        simp [escape]]
      rw [escaped_transform.eq_def]
      simp [ih]
    · by_cases h47 : b = 47
      · subst h47
        rw [show escape (47 :: t) ++ 47 :: r = 92 :: 47 :: (escape t ++ 47 :: r) from by
          simp [escape]]
        rw [escaped_transform.eq_def]
        simp [ih]
      · rw [show escape (b :: t) ++ 47 :: r = b :: (escape t ++ 47 :: r) from by
          simp [escape, h92, h47]]
        rw [escaped_transform.eq_def]
        simp [ih, h47, h92]

/-- C5: for every well-formed `Message` (its `u32` fields fit in 32
bits), decoding the result of encoding it yields the message again:
`Message.parse (m.to_packet)` succeeds with `m`, with `to_packet`
escaping `\` as `\\` and `/` as `\/` and the parse unescaping exactly
those two sequences — so a data payload containing both `/` and `\`
survives the round trip unchanged. -/
theorem decode_encode_roundtrip (m : Message) (h : m.wf = true) :
    Message.parse m.to_packet = some m := by
  obtain ⟨s, pl⟩ := m
  cases pl with
  | connect =>
    have hs : s < 2 ^ 32 := by simpa [Message.wf] using h
    have e1 : Message.to_packet ⟨s, Payload.connect⟩
        = 47 :: (str_bytes "connect" ++ 47 :: (nat_dec_bytes s ++ [47])) := by
      simp [Message.to_packet]
    have e2 : (str_bytes "connect" ++ 47 :: (nat_dec_bytes s ++ [47])).takeWhile
          (fun b => b != 47) = str_bytes "connect" :=
      takeWhile_append_cons _ _ _ _ (by decide) (by decide)
    have e3 : parse_u32_from_digits (nat_dec_bytes s ++ 47 :: ([] : List Nat))
        = some (47 :: ([] : List Nat), s) := parse_u32_round s hs []
    have e4 : (str_bytes "connect").isEmpty = false := by decide
    simp [Message.parse, parse_message, e1, e2, e3, e4, parse_char, List.drop_left]
  | close =>
    have hs : s < 2 ^ 32 := by simpa [Message.wf] using h
    have e1 : Message.to_packet ⟨s, Payload.close⟩
        = 47 :: (str_bytes "close" ++ 47 :: (nat_dec_bytes s ++ [47])) := by
      simp [Message.to_packet]
    have e2 : (str_bytes "close" ++ 47 :: (nat_dec_bytes s ++ [47])).takeWhile
          (fun b => b != 47) = str_bytes "close" :=
      takeWhile_append_cons _ _ _ _ (by decide) (by decide)
    have e3 : parse_u32_from_digits (nat_dec_bytes s ++ 47 :: ([] : List Nat))
        = some (47 :: ([] : List Nat), s) := parse_u32_round s hs []
    have e4 : (str_bytes "close").isEmpty = false := by decide
    have e5 : ¬(str_bytes "close" = str_bytes "connect") := by decide
    simp [Message.parse, parse_message, e1, e2, e3, e4, e5, parse_char, List.drop_left]
  | ack p =>
    have hsp : s < 2 ^ 32 ∧ p < 2 ^ 32 := by simpa [Message.wf] using h
    have e1 : Message.to_packet ⟨s, Payload.ack p⟩
        = 47 :: (str_bytes "ack"
            ++ 47 :: (nat_dec_bytes s ++ 47 :: (nat_dec_bytes p ++ [47]))) := by
      simp [Message.to_packet]
    have e2 : (str_bytes "ack"
          ++ 47 :: (nat_dec_bytes s ++ 47 :: (nat_dec_bytes p ++ [47]))).takeWhile
          (fun b => b != 47) = str_bytes "ack" :=
      takeWhile_append_cons _ _ _ _ (by decide) (by decide)
    have e3 : parse_u32_from_digits
          (nat_dec_bytes s ++ 47 :: (nat_dec_bytes p ++ [47]))
        = some (47 :: (nat_dec_bytes p ++ [47]), s) :=
      parse_u32_round s hsp.1 (nat_dec_bytes p ++ [47])
    have e6 : parse_u32_from_digits (nat_dec_bytes p ++ 47 :: ([] : List Nat))
        = some (47 :: ([] : List Nat), p) := parse_u32_round p hsp.2 []
    have e4 : (str_bytes "ack").isEmpty = false := by decide
    have e5 : ¬(str_bytes "ack" = str_bytes "connect") := by decide
    have e5b : ¬(str_bytes "ack" = str_bytes "close") := by decide
    simp [Message.parse, parse_message, e1, e2, e3, e4, e5, e5b, e6, parse_char,
      List.drop_left]
  | data d p =>
    have hsp : s < 2 ^ 32 ∧ p < 2 ^ 32 := by simpa [Message.wf] using h
    have e1 : Message.to_packet ⟨s, Payload.data d p⟩
        = 47 :: (str_bytes "data"
            ++ 47 :: (nat_dec_bytes s
              ++ 47 :: (nat_dec_bytes p ++ 47 :: (escape d ++ [47])))) := by
      simp [Message.to_packet]
    have e2 : (str_bytes "data"
          ++ 47 :: (nat_dec_bytes s
            ++ 47 :: (nat_dec_bytes p ++ 47 :: (escape d ++ [47])))).takeWhile
          (fun b => b != 47) = str_bytes "data" :=
      takeWhile_append_cons _ _ _ _ (by decide) (by decide)
    have e3 : parse_u32_from_digits
          (nat_dec_bytes s ++ 47 :: (nat_dec_bytes p ++ 47 :: (escape d ++ [47])))
        = some (47 :: (nat_dec_bytes p ++ 47 :: (escape d ++ [47])), s) :=
      parse_u32_round s hsp.1 (nat_dec_bytes p ++ 47 :: (escape d ++ [47]))
    have e6 : parse_u32_from_digits (nat_dec_bytes p ++ 47 :: (escape d ++ [47]))
        = some (47 :: (escape d ++ [47]), p) :=
      parse_u32_round p hsp.2 (escape d ++ [47])
    have e7 : escaped_transform (escape d ++ 47 :: ([] : List Nat))
        = some (d, 47 :: ([] : List Nat)) := escaped_transform_escape d []
    have e4 : (str_bytes "data").isEmpty = false := by decide
    have e5 : ¬(str_bytes "data" = str_bytes "connect") := by decide
    have e5b : ¬(str_bytes "data" = str_bytes "close") := by decide
    have e5c : ¬(str_bytes "data" = str_bytes "ack") := by decide
    simp [Message.parse, parse_message, e1, e2, e3, e4, e5, e5b, e5c, e6, e7,
      parse_char, List.drop_left]

/-- Witness for C5 at a `Data` message whose payload holds both a slash
and a backslash. -/
theorem decode_encode_roundtrip_witness :
    Message.wf ⟨123, Payload.data [47, 92, 104] 5⟩ = true
    ∧ Message.parse (Message.to_packet ⟨123, Payload.data [47, 92, 104] 5⟩)
        = some ⟨123, Payload.data [47, 92, 104] 5⟩ :=
  ⟨by decide, decode_encode_roundtrip ⟨123, Payload.data [47, 92, 104] 5⟩ (by decide)⟩
